import Mathlib

/-!
Verification development for the `HMSRoomSetup` component and the
`HMSPreviewJoinButton` component of the 100ms room UI layer.

The component wires SDK lifecycle events (error, preview, join, permission
requests, poll updates, whiteboard updates) into an application-level state
store and maintains the peer-track-node rendering list.  This file embeds the
event handlers as pure Lean functions over an explicit state and proves the
documented properties about them.

Machine strings (peer ids, track ids, error descriptions) are `String`,
error codes and timestamps (milliseconds since the epoch) are `Nat`.
-/

namespace HMSRoom

/-- A media track.  Only the identifier is relevant to the handlers. -/
structure HMSTrack where
  trackId : String
  deriving DecidableEq, Repr

/-- The aspects of a peer's role that the join handler inspects: whether the
role's publish settings allow publishing, and whether the role together with
the layout configuration makes the peer a pure HLS viewer. -/
structure HMSRole where
  allowedToPublish : Bool
  hlsViewer : Bool
  deriving DecidableEq, Repr

/-- A peer, carrying its identifier, its (optional) video track and its role. -/
structure HMSPeer where
  peerID : String
  videoTrack : Option HMSTrack
  role : HMSRole
  deriving DecidableEq, Repr

/-- A `PeerTrackNode`: the view-model unit pairing a peer with an optional
track for rendering (`./utils/types`). -/
structure PeerTrackNode where
  id : String
  peer : HMSPeer
  track : Option HMSTrack
  deriving DecidableEq, Repr

/-- Modelled from the spec: `createPeerTrackNode` (imported from
`./utils/functions`, not among the provided sources) builds the view-model
node pairing the given peer with the given track for rendering. -/
def createPeerTrackNode (peer : HMSPeer) (track : Option HMSTrack) : PeerTrackNode :=
  { id := peer.peerID ++ (match track with | some t => t.trackId | none => "")
    peer := peer
    track := track }

/-- Modelled from the spec: `peerTrackNodeExistForPeerAndTrack` (imported from
`./peerTrackNodeUtils`, not among the provided sources) decides whether the
list already has a node for this exact (peer, track) combination. -/
def peerTrackNodeExistForPeerAndTrack (nodes : List PeerTrackNode) (peer : HMSPeer)
    (track : HMSTrack) : Bool :=
  nodes.any (fun n => n.peer.peerID == peer.peerID && n.track == some track)

/-- Modelled from the spec: `peerTrackNodeExistForPeer` (imported from
`./peerTrackNodeUtils`, not among the provided sources) decides whether the
list has any node for this peer, whatever its track. -/
def peerTrackNodeExistForPeer (nodes : List PeerTrackNode) (peer : HMSPeer) : Bool :=
  nodes.any (fun n => n.peer.peerID == peer.peerID)

/-- Modelled from the spec: `replacePeerTrackNodesWithTrack` (imported from
`./peerTrackNodeUtils`, not among the provided sources) replaces, in place,
the data of every node matching this exact (peer, track) combination. -/
def replacePeerTrackNodesWithTrack (nodes : List PeerTrackNode) (peer : HMSPeer)
    (track : HMSTrack) : List PeerTrackNode :=
  nodes.map (fun n =>
    if n.peer.peerID == peer.peerID && n.track == some track then
      { n with peer := peer, track := some track }
    else n)

/-- Modelled from the spec: `replacePeerTrackNodes` (imported from
`./peerTrackNodeUtils`, not among the provided sources) replaces, in place,
the peer data of every node belonging to this peer. -/
def replacePeerTrackNodes (nodes : List PeerTrackNode) (peer : HMSPeer) :
    List PeerTrackNode :=
  nodes.map (fun n =>
    if n.peer.peerID == peer.peerID then { n with peer := peer } else n)

/-- The functional updater passed to `setPeerTrackNodes` by `onJoinHandler`
(`HMSRoomSetup`, lines 337-358): replace the node for the exact (peer, track)
combination when one exists, otherwise replace the node for the peer when one
exists, otherwise prepend the freshly created local node — but only when the
local tile inset is disabled and the local peer may create a tile. -/
def onJoinUpdatePeerTrackNodes (prev : List PeerTrackNode) (peer : HMSPeer)
    (track : Option HMSTrack) (enableLocalTileInset canCreateTile : Bool)
    (localPeerTrackNode : PeerTrackNode) : List PeerTrackNode :=
  match track with
  | some t =>
    if peerTrackNodeExistForPeerAndTrack prev peer t then
      replacePeerTrackNodesWithTrack prev peer t
    else if peerTrackNodeExistForPeer prev peer then
      replacePeerTrackNodes prev peer
    else if !enableLocalTileInset && canCreateTile then
      localPeerTrackNode :: prev
    else prev
  | none =>
    if peerTrackNodeExistForPeer prev peer then
      replacePeerTrackNodes prev peer
    else if !enableLocalTileInset && canCreateTile then
      localPeerTrackNode :: prev
    else prev

/-- The rendering key of a node: its (peer, track) combination. -/
def nodeKey (n : PeerTrackNode) : String × Option HMSTrack :=
  (n.peer.peerID, n.track)

/-- The list invariant: at most one node per (peer, track) combination. -/
def UniqueKeys (nodes : List PeerTrackNode) : Prop :=
  (nodes.map nodeKey).Nodup

theorem nodeKey_replaceWithTrack (nodes : List PeerTrackNode) (peer : HMSPeer)
    (t : HMSTrack) :
    (replacePeerTrackNodesWithTrack nodes peer t).map nodeKey = nodes.map nodeKey := by
  unfold replacePeerTrackNodesWithTrack
  rw [List.map_map]
  apply List.map_congr_left
  intro n _
  simp only [Function.comp_apply]
  by_cases h : (n.peer.peerID == peer.peerID && n.track == some t) = true
  · obtain ⟨h1, h2⟩ := Bool.and_eq_true_iff.mp h
    rw [if_pos h]
    simp only [nodeKey]
    rw [← eq_of_beq h1, ← eq_of_beq h2]
  · rw [if_neg h]

theorem nodeKey_replace (nodes : List PeerTrackNode) (peer : HMSPeer) :
    (replacePeerTrackNodes nodes peer).map nodeKey = nodes.map nodeKey := by
  unfold replacePeerTrackNodes
  rw [List.map_map]
  apply List.map_congr_left
  intro n _
  simp only [Function.comp_apply]
  by_cases h : (n.peer.peerID == peer.peerID) = true
  · rw [if_pos h]
    simp only [nodeKey]
    rw [← eq_of_beq h]
  · rw [if_neg h]

theorem key_notMem_of_not_existForPeer (nodes : List PeerTrackNode) (peer : HMSPeer)
    (h : peerTrackNodeExistForPeer nodes peer = false) (tr : Option HMSTrack) :
    (peer.peerID, tr) ∉ nodes.map nodeKey := by
  intro hmem
  obtain ⟨n, hn, hkey⟩ := List.mem_map.mp hmem
  have hne : ¬ ((n.peer.peerID == peer.peerID) = true) := by
    intro hb
    have : nodes.any (fun n => n.peer.peerID == peer.peerID) = true :=
      List.any_eq_true.mpr ⟨n, hn, hb⟩
    rw [peerTrackNodeExistForPeer] at h
    rw [h] at this
    exact Bool.false_ne_true this
  apply hne
  have : n.peer.peerID = peer.peerID := congrArg Prod.fst hkey
  exact beq_iff_eq.mpr this

theorem existForPeer_of_existForPeerAndTrack (nodes : List PeerTrackNode)
    (peer : HMSPeer) (t : HMSTrack)
    (h : peerTrackNodeExistForPeerAndTrack nodes peer t = true) :
    peerTrackNodeExistForPeer nodes peer = true := by
  rw [peerTrackNodeExistForPeerAndTrack, List.any_eq_true] at h
  obtain ⟨n, hn, hb⟩ := h
  exact List.any_eq_true.mpr ⟨n, hn, (Bool.and_eq_true_iff.mp hb).1⟩

theorem existForPeerAndTrack_iff (nodes : List PeerTrackNode) (peer : HMSPeer)
    (t : HMSTrack) :
    peerTrackNodeExistForPeerAndTrack nodes peer t = true ↔
      ∃ n ∈ nodes, n.peer.peerID = peer.peerID ∧ n.track = some t := by
  simp [peerTrackNodeExistForPeerAndTrack, List.any_eq_true]

theorem existForPeer_iff (nodes : List PeerTrackNode) (peer : HMSPeer) :
    peerTrackNodeExistForPeer nodes peer = true ↔
      ∃ n ∈ nodes, n.peer.peerID = peer.peerID := by
  simp [peerTrackNodeExistForPeer, List.any_eq_true]

/-- Claim C1: every update performed by the join handler on the peer-track-node
list — replace-for-peer-and-track, replace-for-peer, or prepend of the local
peer's node — preserves the invariant that the list contains at most one node
per (peer, track) combination. -/
theorem onJoin_preserves_uniqueKeys (prev : List PeerTrackNode) (peer : HMSPeer)
    (track : Option HMSTrack) (inset canCreate : Bool) (h : UniqueKeys prev) :
    UniqueKeys (onJoinUpdatePeerTrackNodes prev peer track inset canCreate
      (createPeerTrackNode peer track)) := by
  unfold UniqueKeys at *
  cases track with
  | some t =>
    rw [onJoinUpdatePeerTrackNodes]
    by_cases h1 : peerTrackNodeExistForPeerAndTrack prev peer t = true
    · rw [if_pos h1, nodeKey_replaceWithTrack]
      exact h
    · rw [if_neg h1]
      by_cases h2 : peerTrackNodeExistForPeer prev peer = true
      · rw [if_pos h2, nodeKey_replace]
        exact h
      · rw [if_neg h2]
        by_cases h3 : (!inset && canCreate) = true
        · rw [if_pos h3]
          rw [List.map_cons, List.nodup_cons]
          refine ⟨?_, h⟩
          have h2f : peerTrackNodeExistForPeer prev peer = false :=
            Bool.eq_false_iff.mpr h2
          exact key_notMem_of_not_existForPeer prev peer h2f (some t)
        · rw [if_neg h3]
          exact h
  | none =>
    rw [onJoinUpdatePeerTrackNodes]
    by_cases h2 : peerTrackNodeExistForPeer prev peer = true
    · rw [if_pos h2, nodeKey_replace]
      exact h
    · rw [if_neg h2]
      by_cases h3 : (!inset && canCreate) = true
      · rw [if_pos h3]
        rw [List.map_cons, List.nodup_cons]
        refine ⟨?_, h⟩
        have h2f : peerTrackNodeExistForPeer prev peer = false :=
          Bool.eq_false_iff.mpr h2
        exact key_notMem_of_not_existForPeer prev peer h2f none
      · rw [if_neg h3]
        exact h

/-- Concrete track used in witnesses and counterexamples. -/
def wTrack : HMSTrack := { trackId := "track-1" }

/-- Concrete peer used in witnesses and counterexamples: allowed to publish
and not an HLS viewer. -/
def wPeer : HMSPeer :=
  { peerID := "peer-1", videoTrack := some wTrack
    role := { allowedToPublish := true, hlsViewer := false } }

/-- Witness for C1 at a concrete input. -/
theorem onJoin_preserves_uniqueKeys_witness :
    UniqueKeys (onJoinUpdatePeerTrackNodes [] wPeer (some wTrack) false true
      (createPeerTrackNode wPeer (some wTrack))) :=
  onJoin_preserves_uniqueKeys [] wPeer (some wTrack) false true
    (by unfold UniqueKeys; exact List.nodup_nil)

/-- Counterexample for C2: with no node for the peer in the list, the local
peer's node is NOT prepended when the local tile inset is enabled — the list
stays empty and the local node is absent. -/
theorem onJoin_prepend_counterexample :
    peerTrackNodeExistForPeer [] wPeer = false ∧
    onJoinUpdatePeerTrackNodes [] wPeer (some wTrack) true true
      (createPeerTrackNode wPeer (some wTrack)) = [] ∧
    createPeerTrackNode wPeer (some wTrack) ∉
      onJoinUpdatePeerTrackNodes [] wPeer (some wTrack) true true
        (createPeerTrackNode wPeer (some wTrack)) := by
  refine ⟨rfl, rfl, ?_⟩
  intro h
  exact List.not_mem_nil _ h

/-- Claim C2, amended: on join success the rendering-list update proceeds by
cases — a node for the same peer and the same track is replaced in place;
otherwise a node for the same peer (different track) is replaced; otherwise
the local peer's node is prepended, but only when the local tile inset is
disabled and the local peer may create a tile, the list being left unchanged
otherwise. -/
theorem onJoin_update_cases (prev : List PeerTrackNode) (peer : HMSPeer)
    (track : Option HMSTrack) (inset canCreate : Bool) :
    (∀ t, track = some t →
      (∃ n ∈ prev, n.peer.peerID = peer.peerID ∧ n.track = some t) →
      onJoinUpdatePeerTrackNodes prev peer track inset canCreate
          (createPeerTrackNode peer track) =
        replacePeerTrackNodesWithTrack prev peer t) ∧
    ((∀ t, track = some t → ¬ ∃ n ∈ prev, n.peer.peerID = peer.peerID ∧ n.track = some t) →
      (∃ n ∈ prev, n.peer.peerID = peer.peerID) →
      onJoinUpdatePeerTrackNodes prev peer track inset canCreate
          (createPeerTrackNode peer track) =
        replacePeerTrackNodes prev peer) ∧
    ((¬ ∃ n ∈ prev, n.peer.peerID = peer.peerID) →
      onJoinUpdatePeerTrackNodes prev peer track inset canCreate
          (createPeerTrackNode peer track) =
        if !inset && canCreate then createPeerTrackNode peer track :: prev else prev) := by
  refine ⟨?_, ?_, ?_⟩
  · rintro t rfl hex
    rw [onJoinUpdatePeerTrackNodes]
    rw [if_pos ((existForPeerAndTrack_iff prev peer t).mpr hex)]
  · intro hnex hpeer
    cases track with
    | some t =>
      rw [onJoinUpdatePeerTrackNodes]
      have h1 : peerTrackNodeExistForPeerAndTrack prev peer t ≠ true := by
        intro hb
        exact hnex t rfl ((existForPeerAndTrack_iff prev peer t).mp hb)
      rw [if_neg h1, if_pos ((existForPeer_iff prev peer).mpr hpeer)]
    | none =>
      rw [onJoinUpdatePeerTrackNodes]
      rw [if_pos ((existForPeer_iff prev peer).mpr hpeer)]
  · intro hnopeer
    have hp : peerTrackNodeExistForPeer prev peer ≠ true := by
      intro hb
      exact hnopeer ((existForPeer_iff prev peer).mp hb)
    cases track with
    | some t =>
      rw [onJoinUpdatePeerTrackNodes]
      have h1 : peerTrackNodeExistForPeerAndTrack prev peer t ≠ true := by
        intro hb
        exact hp (existForPeer_of_existForPeerAndTrack prev peer t hb)
      rw [if_neg h1, if_neg hp]
    | none =>
      rw [onJoinUpdatePeerTrackNodes]
      rw [if_neg hp]

/-- Witness for claim C2, amended, at a concrete input: with an empty list, inset
disabled and tile creation allowed, the local node is prepended. -/
theorem onJoin_update_cases_witness :
    onJoinUpdatePeerTrackNodes [] wPeer (some wTrack) false true
        (createPeerTrackNode wPeer (some wTrack)) =
      [createPeerTrackNode wPeer (some wTrack)] := by
  have h := (onJoin_update_cases [] wPeer (some wTrack) false true).2.2 (by simp)
  simpa using h

/-- The meeting state enumeration (`./types`), driven by SDK lifecycle
events.  `NOT_JOINED` is the state before any preview/join succeeds. -/
inductive MeetingState
  | NOT_JOINED
  | IN_PREVIEW
  | IN_MEETING
  | MEETING_ENDED
  deriving DecidableEq, Repr

/-- An SDK error event (`HMSException`): code, terminal flag, description. -/
structure HMSException where
  code : Nat
  isTerminal : Bool
  description : String
  deriving DecidableEq, Repr

/-- The reasons the component can leave a room with. -/
inductive OnLeaveReason
  | LEAVE
  | NETWORK_ISSUES
  deriving DecidableEq, Repr

/-- The leave-or-destroy commands from `useLeaveMethods`. -/
inductive LeaveCommand
  | leaveRoom
  | destroyRoom
  deriving DecidableEq, Repr

/-- The kinds of notification the handlers queue (`NotificationTypes`). -/
inductive NotificationType
  | TERMINAL_ERROR
  | ERROR
  | POLLS_AND_QUIZZES
  deriving DecidableEq, Repr

/-- How an error event is surfaced to the user: a queued (non-blocking)
notification, a blocking confirmation dialog whose confirm button runs a
leave/destroy command, or a transient toast. -/
inductive ErrorSurface
  | notification (t : NotificationType)
  | alertConfirm (cmd : LeaveCommand) (reason : OnLeaveReason)
  | toast
  deriving DecidableEq, Repr

/-- Whether an error is classified terminal: the SDK's `isTerminal` flag or a
terminal exception code.  The list of terminal codes (`TerminalExceptionCodes`
from `./utils/types`, not among the provided sources) is passed explicitly. -/
def isTerminalError (terminalCodes : List Nat) (e : HMSException) : Bool :=
  e.isTerminal || terminalCodes.contains e.code

/-- The `ON_ERROR` handler (`HMSRoomSetup`, lines 186-235), as a function from
the meeting state and the error event to the surface shown to the user.
`meetingJoined` and `previewing` are the comparisons of the meeting state the
component computes on lines 181-182. -/
def hmsErrorHandler (terminalCodes : List Nat) (state : MeetingState)
    (e : HMSException) : ErrorSurface :=
  let terminalError := isTerminalError terminalCodes e
  let meetingJoined := state == MeetingState.IN_MEETING
  let previewing := state == MeetingState.IN_PREVIEW
  if meetingJoined then
    if terminalError then ErrorSurface.notification NotificationType.TERMINAL_ERROR
    else ErrorSurface.notification NotificationType.ERROR
  else
    if terminalError then
      if previewing then
        ErrorSurface.alertConfirm LeaveCommand.leaveRoom OnLeaveReason.NETWORK_ISSUES
      else
        ErrorSurface.alertConfirm LeaveCommand.destroyRoom OnLeaveReason.NETWORK_ISSUES
    else ErrorSurface.toast

/-- Modelled from the spec: the consumer of `TERMINAL_ERROR` notifications
(the notification UI, not among the provided sources) presents a user
confirmation dialog whose confirmation performs the destroy path. -/
def terminalNotificationResponse : ErrorSurface :=
  ErrorSurface.alertConfirm LeaveCommand.destroyRoom OnLeaveReason.NETWORK_ISSUES

/-- The overall program response to an error event: the handler's immediate
surface, with a queued `TERMINAL_ERROR` notification resolved to the
confirmation dialog its consumer presents. -/
def programErrorResponse (terminalCodes : List Nat) (state : MeetingState)
    (e : HMSException) : ErrorSurface :=
  match hmsErrorHandler terminalCodes state e with
  | ErrorSurface.notification NotificationType.TERMINAL_ERROR => terminalNotificationResponse
  | r => r

/-- Claim C3: for every terminal error event, the program takes the leave path when
it occurs during preview and the destroy path when it occurs during an active
meeting, in both cases gated behind a user confirmation dialog. -/
theorem terminal_error_paths (terminalCodes : List Nat) (state : MeetingState)
    (e : HMSException) (ht : isTerminalError terminalCodes e = true) :
    (state = MeetingState.IN_PREVIEW →
      programErrorResponse terminalCodes state e =
        ErrorSurface.alertConfirm LeaveCommand.leaveRoom OnLeaveReason.NETWORK_ISSUES) ∧
    (state = MeetingState.IN_MEETING →
      programErrorResponse terminalCodes state e =
        ErrorSurface.alertConfirm LeaveCommand.destroyRoom OnLeaveReason.NETWORK_ISSUES) := by
  constructor
  · rintro rfl
    simp [programErrorResponse, hmsErrorHandler, ht]
  · rintro rfl
    simp [programErrorResponse, hmsErrorHandler, ht, terminalNotificationResponse]

/-- Witness for C3 at a concrete terminal error during preview. -/
theorem terminal_error_paths_witness :
    programErrorResponse [] MeetingState.IN_PREVIEW
        { code := 4005, isTerminal := true, description := "token expired" } =
      ErrorSurface.alertConfirm LeaveCommand.leaveRoom OnLeaveReason.NETWORK_ISSUES :=
  (terminal_error_paths [] MeetingState.IN_PREVIEW
      { code := 4005, isTerminal := true, description := "token expired" }
      (by decide)).1 rfl

/-- Counterexample for C4: a non-terminal error during preview is surfaced as
a transient toast, not as a blocking alert. -/
theorem nonterminal_preview_counterexample :
    hmsErrorHandler [] MeetingState.IN_PREVIEW
        { code := 3001, isTerminal := false, description := "cannot access camera" } =
      ErrorSurface.toast ∧
    (∀ cmd reason, ErrorSurface.toast ≠ ErrorSurface.alertConfirm cmd reason) := by
  constructor
  · rfl
  · intro cmd reason h
    cases h

/-- Claim C4, amended: a non-terminal error during an active meeting is queued as a
(non-blocking) `ERROR` notification; outside an active meeting — in particular
during preview — it is surfaced as a transient toast. -/
theorem nonterminal_error_paths (terminalCodes : List Nat) (state : MeetingState)
    (e : HMSException) (ht : isTerminalError terminalCodes e = false) :
    (state = MeetingState.IN_MEETING →
      hmsErrorHandler terminalCodes state e =
        ErrorSurface.notification NotificationType.ERROR) ∧
    (state ≠ MeetingState.IN_MEETING →
      hmsErrorHandler terminalCodes state e = ErrorSurface.toast) := by
  constructor
  · rintro rfl
    simp [hmsErrorHandler, ht]
  · intro hne
    have hb : (state == MeetingState.IN_MEETING) = false := by
      cases state <;> simp_all
    simp [hmsErrorHandler, ht, hb]

/-- Witness for claim C4, amended, at a concrete non-terminal error in a meeting. -/
theorem nonterminal_error_paths_witness :
    hmsErrorHandler [] MeetingState.IN_MEETING
        { code := 3001, isTerminal := false, description := "cannot access camera" } =
      ErrorSurface.notification NotificationType.ERROR :=
  (nonterminal_error_paths [] MeetingState.IN_MEETING
      { code := 3001, isTerminal := false, description := "cannot access camera" }
      (by decide)).1 rfl

/-- The SDK lifecycle events whose handlers in `HMSRoomSetup` change the
meeting state: `ON_PREVIEW` (lines 248-266) and `ON_JOIN` (lines 269-376). -/
inductive LifecycleEvent
  | onPreview
  | onJoin
  deriving DecidableEq, Repr

/-- The meeting-state transition performed by the lifecycle handlers: the
preview handler dispatches `changeMeetingState(IN_PREVIEW)` and the join
handler dispatches `changeMeetingState(IN_MEETING)`, both unconditionally. -/
def lifecycleStep (_s : MeetingState) (e : LifecycleEvent) : MeetingState :=
  match e with
  | LifecycleEvent.onPreview => MeetingState.IN_PREVIEW
  | LifecycleEvent.onJoin => MeetingState.IN_MEETING

/-- The position of a state in the documented one-directional order
preview → meeting → ended. -/
def stateRank : MeetingState → Nat
  | MeetingState.NOT_JOINED => 0
  | MeetingState.IN_PREVIEW => 1
  | MeetingState.IN_MEETING => 2
  | MeetingState.MEETING_ENDED => 3

/-- Counterexample for C6: the handlers set the state unconditionally, so an
`ON_PREVIEW` event delivered after an `ON_JOIN` event moves the state
backwards, from `IN_MEETING` to `IN_PREVIEW`. -/
theorem lifecycle_backwards_counterexample :
    lifecycleStep MeetingState.NOT_JOINED LifecycleEvent.onJoin =
      MeetingState.IN_MEETING ∧
    lifecycleStep MeetingState.IN_MEETING LifecycleEvent.onPreview =
      MeetingState.IN_PREVIEW ∧
    stateRank MeetingState.IN_PREVIEW < stateRank MeetingState.IN_MEETING := by
  refine ⟨rfl, rfl, ?_⟩
  decide

/-- Claim C6, amended: each lifecycle event causes exactly one transition —
`ON_PREVIEW` sets the state to `IN_PREVIEW` and `ON_JOIN` sets it to
`IN_MEETING`, unconditionally — and along any event sequence in which no
`ON_PREVIEW` follows an `ON_JOIN` (the order the SDK delivers them in a
session), the state never moves backwards; the handlers themselves do not
enforce this one-directionality. -/
theorem lifecycle_transitions (evs : List LifecycleEvent)
    (h : evs.Pairwise (fun a b =>
      ¬(a = LifecycleEvent.onJoin ∧ b = LifecycleEvent.onPreview))) :
    (∀ s, lifecycleStep s LifecycleEvent.onPreview = MeetingState.IN_PREVIEW ∧
          lifecycleStep s LifecycleEvent.onJoin = MeetingState.IN_MEETING) ∧
    (List.scanl lifecycleStep MeetingState.NOT_JOINED evs).Chain'
      (fun a b => stateRank a ≤ stateRank b) := by
  refine ⟨fun _ => ⟨rfl, rfl⟩, ?_⟩
  have aux : ∀ (l : List LifecycleEvent) (s : MeetingState),
      stateRank s ≤ 2 →
      (s = MeetingState.IN_MEETING → LifecycleEvent.onPreview ∉ l) →
      l.Pairwise (fun a b =>
        ¬(a = LifecycleEvent.onJoin ∧ b = LifecycleEvent.onPreview)) →
      (List.scanl lifecycleStep s l).Chain' (fun a b => stateRank a ≤ stateRank b) := by
    intro l
    induction l with
    | nil =>
      intro s _ _ _
      simp [List.scanl]
    | cons e rest ih =>
      intro s hrank hmem hpw
      rw [List.scanl]
      rw [List.chain'_cons']
      constructor
      · intro y hy
        have hhead : (List.scanl lifecycleStep (lifecycleStep s e) rest).head? =
            some (lifecycleStep s e) := by
          cases rest <;> rfl
        rw [hhead] at hy
        cases hy
        cases e with
        | onPreview =>
          have hs : s ≠ MeetingState.IN_MEETING := by
            intro hsm
            exact (hmem hsm) (List.mem_cons_self _ _)
          cases s with
          | NOT_JOINED => simp [lifecycleStep, stateRank]
          | IN_PREVIEW => simp [lifecycleStep, stateRank]
          | IN_MEETING => exact absurd rfl hs
          | MEETING_ENDED => simp [stateRank] at hrank
        | onJoin =>
          cases s with
          | NOT_JOINED => simp [lifecycleStep, stateRank]
          | IN_PREVIEW => simp [lifecycleStep, stateRank]
          | IN_MEETING => simp [lifecycleStep, stateRank]
          | MEETING_ENDED => simp [stateRank] at hrank
      · apply ih
        · cases e <;> simp [lifecycleStep, stateRank]
        · intro hsm
          cases e with
          | onPreview => simp [lifecycleStep] at hsm
          | onJoin =>
            intro hp
            have := (List.pairwise_cons.mp hpw).1 LifecycleEvent.onPreview hp
            exact this ⟨rfl, rfl⟩
        · exact (List.pairwise_cons.mp hpw).2
  exact aux evs MeetingState.NOT_JOINED (by simp [stateRank])
    (by intro hsm; cases hsm) h

/-- Witness for claim C6, amended, at the concrete session preview-then-join. -/
theorem lifecycle_transitions_witness :
    (List.scanl lifecycleStep MeetingState.NOT_JOINED
        [LifecycleEvent.onPreview, LifecycleEvent.onJoin]).Chain'
      (fun a b => stateRank a ≤ stateRank b) :=
  (lifecycle_transitions [LifecycleEvent.onPreview, LifecycleEvent.onJoin]
      (by simp)).2

/-- Modelled from the spec: `isPublishingAllowed` (from `./hooks-util`, not
among the provided sources) decides whether the peer's role publish settings
allow it to publish. -/
def isPublishingAllowed (p : HMSPeer) : Bool :=
  p.role.allowedToPublish

/-- Modelled from the spec: `selectIsHLSViewer` (from
`./hooks-util-selectors`, not among the provided sources) decides from the
peer's role and the layout configuration whether the peer is a pure HLS
viewer; the decision is carried on the role here. -/
def selectIsHLSViewer (p : HMSPeer) : Bool :=
  p.role.hlsViewer

/-- How the join handler stores the local peer's node: updating the node
already in the store, or saving the freshly created one. -/
inductive LocalNodeStoreAction
  | updatedExisting
  | setNew
  deriving DecidableEq, Repr

/-- The rendering-relevant outcome of the join handler: the action taken on
the stored local node, the node routed to the mini-view slot, and the updated
main rendering list. -/
structure OnJoinResult where
  localNodeAction : Option LocalNodeStoreAction
  miniViewNode : Option PeerTrackNode
  peerTrackNodes : List PeerTrackNode
  deriving DecidableEq, Repr

/-- The `ON_JOIN` handler (`HMSRoomSetup`, lines 269-366), restricted to its
local-tile effects: it computes `canCreateTile` as publishing allowed and not
an HLS viewer, stores or updates the local node and routes it to the
mini-view slot when the inset is enabled, and updates the main rendering list
through `onJoinUpdatePeerTrackNodes`. -/
def onJoinHandler (prevNodes : List PeerTrackNode) (localPeer : HMSPeer)
    (enableLocalTileInset hasStoredLocalNode : Bool) : OnJoinResult :=
  let track := localPeer.videoTrack
  let localPeerTrackNode := createPeerTrackNode localPeer track
  let canCreateTile := isPublishingAllowed localPeer && !selectIsHLSViewer localPeer
  { localNodeAction :=
      if canCreateTile then
        some (if hasStoredLocalNode then LocalNodeStoreAction.updatedExisting
              else LocalNodeStoreAction.setNew)
      else none
    miniViewNode :=
      if canCreateTile && enableLocalTileInset then some localPeerTrackNode else none
    peerTrackNodes :=
      onJoinUpdatePeerTrackNodes prevNodes localPeer track enableLocalTileInset
        canCreateTile localPeerTrackNode }

theorem onJoinUpdate_length_of_inset (prev : List PeerTrackNode) (peer : HMSPeer)
    (track : Option HMSTrack) (canCreate : Bool) (ln : PeerTrackNode) :
    (onJoinUpdatePeerTrackNodes prev peer track true canCreate ln).length =
      prev.length := by
  have hno : (!true && canCreate) ≠ true := by simp
  cases track with
  | some t =>
    rw [onJoinUpdatePeerTrackNodes]
    by_cases h1 : peerTrackNodeExistForPeerAndTrack prev peer t = true
    · rw [if_pos h1]
      simp [replacePeerTrackNodesWithTrack]
    · rw [if_neg h1]
      by_cases h2 : peerTrackNodeExistForPeer prev peer = true
      · rw [if_pos h2]
        simp [replacePeerTrackNodes]
      · rw [if_neg h2, if_neg hno]
  | none =>
    rw [onJoinUpdatePeerTrackNodes]
    by_cases h2 : peerTrackNodeExistForPeer prev peer = true
    · rw [if_pos h2]
      simp [replacePeerTrackNodes]
    · rw [if_neg h2, if_neg hno]

/-- Claim C7: on join success a local tile is stored only when the local peer may
publish and is not a pure HLS viewer; when the inset mode is enabled the
local node goes to the mini-view slot and the main rendering list gains no
node, so the local node is never placed in both. -/
theorem onJoin_local_tile (prev : List PeerTrackNode) (peer : HMSPeer)
    (inset hasStored : Bool) :
    ((onJoinHandler prev peer inset hasStored).localNodeAction ≠ none ↔
      isPublishingAllowed peer = true ∧ selectIsHLSViewer peer = false) ∧
    (isPublishingAllowed peer = true → selectIsHLSViewer peer = false →
      inset = true →
      (onJoinHandler prev peer inset hasStored).miniViewNode =
          some (createPeerTrackNode peer peer.videoTrack) ∧
        (onJoinHandler prev peer inset hasStored).peerTrackNodes.length =
          prev.length) ∧
    ((onJoinHandler prev peer inset hasStored).miniViewNode ≠ none →
      (onJoinHandler prev peer inset hasStored).peerTrackNodes.length =
        prev.length) := by
  refine ⟨?_, ?_, ?_⟩
  · constructor
    · intro hne
      by_cases hc : (isPublishingAllowed peer && !selectIsHLSViewer peer) = true
      · obtain ⟨h1, h2⟩ := Bool.and_eq_true_iff.mp hc
        exact ⟨h1, by simpa using h2⟩
      · exfalso
        apply hne
        simp only [onJoinHandler]
        rw [if_neg hc]
    · rintro ⟨h1, h2⟩
      simp only [onJoinHandler]
      rw [if_pos (by rw [h1, h2]; rfl)]
      simp
  · intro h1 h2 hinset
    subst hinset
    constructor
    · simp only [onJoinHandler]
      rw [if_pos (by rw [h1, h2]; rfl)]
    · simp only [onJoinHandler]
      exact onJoinUpdate_length_of_inset prev peer peer.videoTrack _ _
  · intro hmv
    by_cases hc : ((isPublishingAllowed peer && !selectIsHLSViewer peer) && inset) = true
    · have hinset : inset = true := (Bool.and_eq_true_iff.mp hc).2
      subst hinset
      simp only [onJoinHandler]
      exact onJoinUpdate_length_of_inset prev peer peer.videoTrack _ _
    · exfalso
      apply hmv
      simp only [onJoinHandler]
      rw [if_neg hc]

/-- Witness for C7: with a publishing, non-viewer local peer and inset mode
enabled on an empty list, the node goes to the mini view and the main list
stays empty. -/
theorem onJoin_local_tile_witness :
    (onJoinHandler [] wPeer true false).miniViewNode =
        some (createPeerTrackNode wPeer wPeer.videoTrack) ∧
      (onJoinHandler [] wPeer true false).peerTrackNodes.length =
        ([] : List PeerTrackNode).length :=
  (onJoin_local_tile [] wPeer true false).2.1 rfl rfl rfl

/-- A poll, as inspected by the poll-update listener: its id and its
(optional) start time, in milliseconds since the epoch. -/
structure HMSPoll where
  pollId : String
  startedAt : Option Nat
  deriving DecidableEq, Repr

/-- The poll update types dispatched by the interactivity center. -/
inductive HMSPollUpdateType
  | started
  | stopped
  | resultsUpdated
  deriving DecidableEq, Repr

/-- A poll-update listener invocation: the wall-clock time at which the
callback runs (`Date.now()`), the poll and the update type. -/
structure PollUpdateEvent where
  now : Nat
  poll : HMSPoll
  updateType : HMSPollUpdateType
  deriving DecidableEq, Repr

/-- The store slice the poll listener reads and writes: the ids present in
`state.polls.polls` and the queued poll notifications. -/
structure PollStoreState where
  pollIds : List String
  notifications : List (String × HMSPollUpdateType)
  deriving DecidableEq, Repr

/-- `addPoll` on the id-keyed poll store: an update for an id already present
overwrites it, a new id is inserted. -/
def addPollId (ids : List String) (i : String) : List String :=
  if ids.contains i then ids else i :: ids

/-- The condition under which the poll listener (`HMSRoomSetup`, lines
488-525) queues a `POLLS_AND_QUIZZES` notification: the update is a start,
the poll id is not yet in the store, and — for a pure HLS viewer — the poll
has a start time lying 20 seconds or more in the past. -/
def pollNotificationEmitted (isHLSViewer : Bool) (pollIds : List String)
    (now : Nat) (poll : HMSPoll) (u : HMSPollUpdateType) : Bool :=
  u == HMSPollUpdateType.started && !(pollIds.contains poll.pollId) &&
    (if isHLSViewer then
      match poll.startedAt with
      | some t => decide (20000 ≤ now - t)
      | none => false
    else true)

/-- One invocation of the poll-update listener, as a transformation of the
poll store: the poll is always written to the store, and the notification is
queued exactly when `pollNotificationEmitted` holds. -/
def pollUpdateStep (isHLSViewer : Bool) (s : PollStoreState)
    (ev : PollUpdateEvent) : PollStoreState :=
  let emit := pollNotificationEmitted isHLSViewer s.pollIds ev.now ev.poll ev.updateType
  { pollIds := addPollId s.pollIds ev.poll.pollId
    notifications :=
      if emit then s.notifications ++ [(ev.poll.pollId, ev.updateType)]
      else s.notifications }

/-- A sequence of poll-update listener invocations, in delivery order. -/
def runPollUpdates (isHLSViewer : Bool) (s : PollStoreState)
    (evs : List PollUpdateEvent) : PollStoreState :=
  evs.foldl (pollUpdateStep isHLSViewer) s

/-- How many notifications for a given poll id have been queued. -/
def notifCount (i : String) (s : PollStoreState) : Nat :=
  s.notifications.countP (fun p => p.1 == i)

theorem contains_eq_false_iff (ids : List String) (i : String) :
    ids.contains i = false ↔ i ∉ ids := by
  simp

theorem mem_pollIds_step (v : Bool) (s : PollStoreState) (ev : PollUpdateEvent)
    (i : String) (h : i ∈ s.pollIds) : i ∈ (pollUpdateStep v s ev).pollIds := by
  simp only [pollUpdateStep, addPollId]
  by_cases hc : s.pollIds.contains ev.poll.pollId = true
  · rw [if_pos hc]
    exact h
  · rw [if_neg hc]
    exact List.mem_cons_of_mem _ h

theorem notifCount_step_of_mem (v : Bool) (s : PollStoreState)
    (ev : PollUpdateEvent) (i : String) (h : i ∈ s.pollIds) :
    notifCount i (pollUpdateStep v s ev) = notifCount i s := by
  simp only [pollUpdateStep, notifCount]
  by_cases he : pollNotificationEmitted v s.pollIds ev.now ev.poll ev.updateType = true
  · rw [if_pos he]
    rw [List.countP_append]
    have hne : ev.poll.pollId ≠ i := by
      intro heq
      have hcon : (!(s.pollIds.contains ev.poll.pollId)) = true := by
        rw [pollNotificationEmitted] at he
        exact (Bool.and_eq_true_iff.mp (Bool.and_eq_true_iff.mp he).1).2
      rw [heq] at hcon
      rw [Bool.not_eq_true'] at hcon
      exact (contains_eq_false_iff s.pollIds i).mp hcon h
    have : List.countP (fun p => p.1 == i) [(ev.poll.pollId, ev.updateType)] = 0 := by
      simp [List.countP_cons, hne]
    rw [this]
    omega
  · rw [if_neg he]

theorem notifCount_run_of_mem (v : Bool) (s : PollStoreState)
    (evs : List PollUpdateEvent) (i : String) (h : i ∈ s.pollIds) :
    notifCount i (runPollUpdates v s evs) = notifCount i s := by
  induction evs generalizing s with
  | nil => rfl
  | cons ev rest ih =>
    rw [runPollUpdates, List.foldl_cons]
    have hmem := mem_pollIds_step v s ev i h
    have := ih (pollUpdateStep v s ev) hmem
    rw [runPollUpdates] at this
    rw [this]
    exact notifCount_step_of_mem v s ev i h

theorem notifCount_run_le (v : Bool) (s : PollStoreState)
    (evs : List PollUpdateEvent) (i : String) :
    notifCount i (runPollUpdates v s evs) ≤ notifCount i s + 1 := by
  induction evs generalizing s with
  | nil => exact Nat.le_succ _
  | cons ev rest ih =>
    rw [runPollUpdates, List.foldl_cons]
    by_cases hc : ev.poll.pollId = i
    · subst hc
      by_cases he : pollNotificationEmitted v s.pollIds ev.now ev.poll ev.updateType = true
      · have hmem : ev.poll.pollId ∈ (pollUpdateStep v s ev).pollIds := by
          simp only [pollUpdateStep, addPollId]
          by_cases hcon : s.pollIds.contains ev.poll.pollId = true
          · rw [if_pos hcon]
            exact List.mem_of_elem_eq_true hcon
          · rw [if_neg hcon]
            exact List.mem_cons_self _ _
        have hrun := notifCount_run_of_mem v (pollUpdateStep v s ev) rest
          ev.poll.pollId hmem
        rw [runPollUpdates] at hrun
        rw [hrun]
        have : notifCount ev.poll.pollId (pollUpdateStep v s ev) =
            notifCount ev.poll.pollId s + 1 := by
          simp only [pollUpdateStep, notifCount]
          rw [if_pos he, List.countP_append]
          simp [List.countP_cons]
        rw [this]
      · have hstep : notifCount ev.poll.pollId (pollUpdateStep v s ev) =
            notifCount ev.poll.pollId s := by
          simp only [pollUpdateStep, notifCount]
          rw [if_neg he]
        have := ih (pollUpdateStep v s ev)
        rw [runPollUpdates] at this
        rw [hstep] at this
        exact this
    · have hstep : notifCount i (pollUpdateStep v s ev) = notifCount i s := by
        simp only [pollUpdateStep, notifCount]
        by_cases he : pollNotificationEmitted v s.pollIds ev.now ev.poll ev.updateType = true
        · rw [if_pos he, List.countP_append]
          simp [List.countP_cons, hc]
        · rw [if_neg he]
      have := ih (pollUpdateStep v s ev)
      rw [runPollUpdates] at this
      rw [hstep] at this
      exact this

/-- Claim C5: for a pure HLS viewer and a started poll whose id is not yet in the
store, the notification is queued exactly when the poll's start time lies 20
seconds or more in the past; across any sequence of repeated updates, at most
one notification is queued per poll id, and once the notification for a poll
is queued on delivery of its start, no later update queues another. -/
theorem poll_started_notification_policy :
    (∀ (pollIds : List String) (now : Nat) (poll : HMSPoll),
      poll.pollId ∉ pollIds →
      (pollNotificationEmitted true pollIds now poll HMSPollUpdateType.started = true ↔
        ∃ t, poll.startedAt = some t ∧ 20000 ≤ now - t)) ∧
    (∀ (s : PollStoreState) (evs : List PollUpdateEvent) (i : String),
      notifCount i (runPollUpdates true s evs) ≤ notifCount i s + 1) ∧
    (∀ (s : PollStoreState) (ev : PollUpdateEvent) (evs : List PollUpdateEvent),
      pollNotificationEmitted true s.pollIds ev.now ev.poll ev.updateType = true →
      notifCount ev.poll.pollId (runPollUpdates true s (ev :: evs)) =
        notifCount ev.poll.pollId s + 1) := by
  refine ⟨?_, ?_, ?_⟩
  · intro pollIds now poll hmem
    have hc : pollIds.contains poll.pollId = false :=
      (contains_eq_false_iff pollIds poll.pollId).mpr hmem
    rw [pollNotificationEmitted]
    rw [hc]
    cases hst : poll.startedAt with
    | some t =>
      constructor
      · intro hb
        refine ⟨t, rfl, ?_⟩
        simp only [hst] at hb
        have := (Bool.and_eq_true_iff.mp hb).2
        exact of_decide_eq_true this
      · rintro ⟨t2, ht2, hle⟩
        cases ht2
        simp [hle]
    | none =>
      simp
  · intro s evs i
    exact notifCount_run_le true s evs i
  · intro s ev evs he
    rw [runPollUpdates, List.foldl_cons]
    have hmem : ev.poll.pollId ∈ (pollUpdateStep true s ev).pollIds := by
      simp only [pollUpdateStep, addPollId]
      by_cases hcon : s.pollIds.contains ev.poll.pollId = true
      · rw [if_pos hcon]
        exact List.mem_of_elem_eq_true hcon
      · rw [if_neg hcon]
        exact List.mem_cons_self _ _
    have hrun := notifCount_run_of_mem true (pollUpdateStep true s ev) evs
      ev.poll.pollId hmem
    rw [runPollUpdates] at hrun
    rw [hrun]
    simp only [pollUpdateStep, notifCount]
    rw [if_pos he, List.countP_append]
    simp [List.countP_cons]

/-- Witness for C5 at a concrete viewer scenario: a poll started 30 seconds
ago is notified on first delivery. -/
theorem poll_started_notification_policy_witness :
    pollNotificationEmitted true [] 30000 { pollId := "poll-1", startedAt := some 0 }
      HMSPollUpdateType.started = true :=
  (poll_started_notification_policy.1 [] 30000
      { pollId := "poll-1", startedAt := some 0 }
      (List.not_mem_nil _)).mpr ⟨0, rfl, by decide⟩

/-- The SDK subscriptions the component holds: one per event-listener kind
registered by `HMSRoomSetup` on mount. -/
inductive ListenerKind
  | onError
  | onPreview
  | onJoin
  | onPermissionsRequested
  | pollUpdate
  | whiteboardUpdate
  deriving DecidableEq, Repr

/-- The listeners the mount effects register, in effect order: `ON_ERROR`
(line 237), `ON_PREVIEW` (line 258), `ON_JOIN` (line 368),
`ON_PERMISSIONS_REQUESTED` on Android only (line 402), the poll-update
subscription (line 465) and the whiteboard-update subscription (line 535). -/
def mountRegistrations (android : Bool) : List ListenerKind :=
  [ListenerKind.onError, ListenerKind.onPreview, ListenerKind.onJoin] ++
    (if android then [ListenerKind.onPermissionsRequested] else []) ++
    [ListenerKind.pollUpdate, ListenerKind.whiteboardUpdate]

/-- The listeners the corresponding cleanup functions deregister on unmount:
`ON_ERROR` (line 243), `ON_PREVIEW` (line 264), `ON_JOIN` (line 374),
`ON_PERMISSIONS_REQUESTED` on Android only (line 409), the poll subscription
removal (line 530) and the whiteboard subscription removal (line 549). -/
def unmountRemovals (android : Bool) : List ListenerKind :=
  [ListenerKind.onError, ListenerKind.onPreview, ListenerKind.onJoin] ++
    (if android then [ListenerKind.onPermissionsRequested] else []) ++
    [ListenerKind.pollUpdate, ListenerKind.whiteboardUpdate]

/-- The set of active subscriptions, keyed by listener kind: the SDK holds at
most one handler per update-listener action, and each interactivity-center
subscription is removed through its own handle. -/
def ListenerState : Type :=
  ListenerKind → Bool

/-- Registering a listener for a kind. -/
def registerListener (s : ListenerState) (k : ListenerKind) : ListenerState :=
  fun q => if q = k then true else s q

/-- Deregistering the listener for a kind. -/
def removeListener (s : ListenerState) (k : ListenerKind) : ListenerState :=
  fun q => if q = k then false else s q

/-- Running all mount effects: every mount registration is applied. -/
def mountAll (android : Bool) (s : ListenerState) : ListenerState :=
  (mountRegistrations android).foldl registerListener s

/-- Running all unmount cleanups: every cleanup's removal is applied. -/
def unmountAll (android : Bool) (s : ListenerState) : ListenerState :=
  (unmountRemovals android).foldl removeListener s

/-- The state with no active subscription: a freshly created component. -/
def noListeners : ListenerState :=
  fun _ => false

/-- Claim C8: every listener registered on mount has a matching deregistration on
unmount, and after mounting from a clean state and running every cleanup, no
subscription remains on any platform — nothing is leaked. -/
theorem listeners_cleanup (android : Bool) :
    (∀ k, k ∈ mountRegistrations android → k ∈ unmountRemovals android) ∧
    (∀ k, unmountAll android (mountAll android noListeners) k = false) := by
  constructor
  · intro k hk
    exact hk
  · intro k
    cases android <;> cases k <;> rfl

/-- Witness for C8: the error listener, registered on mount on iOS, is gone
after unmount. -/
theorem listeners_cleanup_witness :
    ListenerKind.onError ∈ unmountRemovals false ∧
    unmountAll false (mountAll false noListeners) ListenerKind.onError = false :=
  ⟨(listeners_cleanup false).1 ListenerKind.onError (by decide),
    (listeners_cleanup false).2 ListenerKind.onError⟩

/-- One run of the automatic preview-or-join effect (`HMSRoomSetup`, lines
423-462): when the meeting has not ended and the action has not been
initiated yet, the `didInitMeetingAction` ref is set and the preview/join is
fired; otherwise nothing happens.  Returns the new ref value and whether the
action fired. -/
def initMeetingActionStep (meetingEnded didInit : Bool) : Bool × Bool :=
  if !meetingEnded && !didInit then (true, true) else (didInit, false)

/-- The number of preview/join initiations over a sequence of effect runs
(one `meetingEnded` reading per run), threading the ref value through. -/
def countInitiations : Bool → List Bool → Nat
  | _, [] => 0
  | didInit, meetingEnded :: rest =>
    let r := initMeetingActionStep meetingEnded didInit
    (if r.2 then 1 else 0) + countInitiations r.1 rest

theorem countInitiations_of_didInit (renders : List Bool) :
    countInitiations true renders = 0 := by
  induction renders with
  | nil => rfl
  | cons me rest ih =>
    rw [countInitiations]
    have hstep : initMeetingActionStep me true = (true, false) := by
      cases me <;> rfl
    rw [hstep]
    simpa using ih

/-- Claim C9: over every component lifetime — every sequence of re-renders and
meeting-ended state readings, starting from an unset guard — the automatic
preview-or-join action is initiated at most once; once the
`didInitMeetingAction` guard is set it is never invoked again. -/
theorem init_meeting_action_at_most_once (renders : List Bool) :
    countInitiations false renders ≤ 1 := by
  induction renders with
  | nil => exact Nat.zero_le 1
  | cons me rest ih =>
    rw [countInitiations]
    cases me with
    | false =>
      have hstep : initMeetingActionStep false false = (true, true) := rfl
      rw [hstep]
      simp [countInitiations_of_didInit rest]
    | true =>
      have hstep : initMeetingActionStep true false = (false, false) := rfl
      rw [hstep]
      simpa using ih

/-- The join-button disabled computation of `HMSPreviewJoinButton`
(lines 26-51): the stored user name is invalid when its length is not
positive, and the button is disabled when the name is invalid or a
join/preview operation is loading. -/
def disabledJoin (userName : String) (loading : Bool) : Bool :=
  decide (userName.length ≤ 0) || loading

/-- Claim C10: the preview join button is disabled exactly when the stored user
name is empty or a join/preview operation is in progress; with a non-empty
name and no operation in progress it is enabled. -/
theorem disabledJoin_iff (userName : String) (loading : Bool) :
    disabledJoin userName loading = true ↔
      userName.length ≤ 0 ∨ loading = true := by
  rw [disabledJoin]
  rw [Bool.or_eq_true]
  rw [decide_eq_true_iff]
